import Mathlib

/-!
# Verification of the SPOSHCI two-pass assembler / macro-processor core

A shallow embedding, in Lean 4, of the Pass-I assembler
(`assemblerpass1.py`) and the Pass-II macro processor (`macro_pass2.py`)
of the SPOSHCI repository, together with theorems settling the frozen
claims C1-C10 about their behaviour.

Python strings are modelled as Lean `String` / `List Char`; Python's
unbounded integers as `Int`; Python `dict`s (which preserve insertion
order) as association lists with an overwriting insert; fallible parses
as `Option`.  Source lines are modelled without their trailing newline
(the Python code strips it before any processing).
-/

namespace Sposhci

/-! ## Python string primitives used by the sources -/

/-- Accumulator loop for `pySplit`: `acc` holds the reversed characters
of the token being read. -/
def pySplitAux : List Char → List Char → List String
  | [], acc => if acc.isEmpty then [] else [acc.reverse.asString]
  | c :: cs, acc =>
    if c.isWhitespace then
      if acc.isEmpty then pySplitAux cs [] else acc.reverse.asString :: pySplitAux cs []
    else pySplitAux cs (c :: acc)

/-- Python `str.split()` (no argument): split on whitespace runs, dropping
empty pieces. -/
def pySplit (s : String) : List String :=
  pySplitAux s.toList []

/-- Python `str.strip()`: drop leading and trailing whitespace. -/
def pyStrip (s : String) : String :=
  (((s.toList.dropWhile Char.isWhitespace).reverse.dropWhile Char.isWhitespace).reverse).asString

/-- Python `str.upper()` (ASCII). -/
def pyUpper (s : String) : String :=
  (s.toList.map Char.toUpper).asString

/-- Accumulator loop for `pySplitComma`. -/
def splitCommaAux : List Char → List Char → List String
  | [], acc => [acc.reverse.asString]
  | c :: cs, acc =>
    if c = ',' then acc.reverse.asString :: splitCommaAux cs []
    else splitCommaAux cs (c :: acc)

/-- Python `s.split(",")`: split at every comma, keeping empty pieces. -/
def pySplitComma (s : String) : List String :=
  splitCommaAux s.toList []

/-- Python `s.startswith(t)`. -/
def pyStartsWith (s t : String) : Bool :=
  t.toList.isPrefixOf s.toList

/-- Python `s.endswith(t)`. -/
def pyEndsWith (s t : String) : Bool :=
  t.toList.reverse.isPrefixOf s.toList.reverse

/-- Python `s[:-1]` on a non-empty string (used to peel a label colon). -/
def pyDropLast (s : String) : String :=
  (s.toList.take (s.toList.length - 1)).asString

/-- Python `sep.join(xs)`. -/
def joinWith (sep : String) : List String → String
  | [] => ""
  | x :: rest => rest.foldl (fun a b => a ++ sep ++ b) x

/-- Python `str.rstrip()`: drop trailing whitespace. -/
def pyRstrip (s : String) : String :=
  ((s.toList.reverse.dropWhile Char.isWhitespace).reverse).asString

/-- The decimal digits of a character list read as a number
(the value of Python `int` on a digit string). -/
def digitsToNat (ds : List Char) : Nat :=
  ds.foldl (fun n c => 10 * n + (c.toNat - 48)) 0

/-- All characters are ASCII decimal digits, and there is at least one. -/
def isDigits (ds : List Char) : Bool :=
  !ds.isEmpty && ds.all Char.isDigit

/-- Python `int(s)` on a string: optional surrounding whitespace, an
optional single sign, then at least one digit; `none` models
`ValueError`. -/
def pyInt? (s : String) : Option Int :=
  match (pyStrip s).toList with
  | '+' :: ds => if isDigits ds then some ((digitsToNat ds : Nat) : Int) else none
  | '-' :: ds => if isDigits ds then some (-((digitsToNat ds : Nat) : Int)) else none
  | ds => if isDigits ds then some ((digitsToNat ds : Nat) : Int) else none

/-- `re.fullmatch(r"-?\d+", s)`: an optional minus sign then digits. -/
def isIntToken (s : String) : Bool :=
  match s.toList with
  | '-' :: ds => isDigits ds
  | ds => isDigits ds

/-- Value of a token matching `-?\d+` (Python `int` on it). -/
def intTokenVal (s : String) : Int :=
  match s.toList with
  | '-' :: ds => -((digitsToNat ds : Nat) : Int)
  | ds => ((digitsToNat ds : Nat) : Int)

/-- First index at which `t` occurs as a contiguous sublist of `s`
(Python `str.find`, with `none` for `-1`). -/
def findSub (s t : List Char) : Option Nat :=
  if t.isPrefixOf s then some 0
  else
    match s with
    | [] => none
    | _ :: s' => (findSub s' t).map (· + 1)

/-- Python `t in s` substring test. -/
def containsSub (s t : String) : Bool :=
  (findSub s.toList t.toList).isSome

/-- Python `s.find(t)` wrapped for `String`. -/
def strFind? (s t : String) : Option Nat :=
  findSub s.toList t.toList

/-- The ASCII apostrophe character used by quoted literals such as
the assembler's character literals. -/
def quoteChar : Char := Char.ofNat 39

/-! ## Pass-I data model (`assemblerpass1.py`) -/

/-- An entry of the symbol table (`class Symbol`). -/
structure Symbol where
  name : String
  address : Option Int
  defined : Bool
  forward_references : List Nat
deriving DecidableEq, Repr

/-- An entry of the literal table (`class Literal`). -/
structure Literal where
  literal : String
  address : Option Int
deriving DecidableEq, Repr

/-- The mutable state of `class AssemblerPass1` (the source lines are a
parameter of `process`, not part of the state). -/
structure P1State where
  symtab : List Symbol
  littab : List Literal
  pooltab : List Nat
  locctr : Int
  start_address : Int
  intermediate_records : List (Option Int × String)
deriving DecidableEq, Repr

/-- `AssemblerPass1.OPCODES`: name, class and length of each imperative
statement. -/
def OPCODES : List (String × String × Nat) :=
  [("MOVER", "IS", 1), ("MOVEM", "IS", 1), ("ADD", "IS", 1), ("SUB", "IS", 1),
   ("MULT", "IS", 1), ("DIV", "IS", 1), ("BC", "IS", 1), ("COMP", "IS", 1),
   ("READ", "IS", 1), ("PRINT", "IS", 1)]

/-- `tok in OPCODES`. -/
def isOpcode (s : String) : Bool :=
  OPCODES.any (fun e => e.1 = s)

/-- Word length of a known opcode (`OPCODES[opcode][1]`). -/
def opcodeLen (s : String) : Nat :=
  ((OPCODES.find? (fun e => e.1 = s)).map (fun e => e.2.2)).getD 1

/-- `AssemblerPass1.DIRECTIVES`. -/
def DIRECTIVES : List String :=
  ["START", "END", "ORIGIN", "EQU", "LTORG", "DS", "DC"]

/-- `AssemblerPass1.REGISTER_SET`. -/
def REGISTER_SET : List String :=
  ["AREG", "BREG", "CREG", "DREG"]

/-- `AssemblerPass1.is_register`. -/
def is_register (tok : String) : Bool :=
  REGISTER_SET.contains (pyUpper tok)

/-- `AssemblerPass1.literal_pattern`, the regex `^=('[^']'|\-?\d+)$`,
applied to the stripped token (`AssemblerPass1.is_literal`). -/
def is_literal (tok : String) : Bool :=
  match (pyStrip tok).toList with
  | '=' :: rest =>
    (match rest with
     | [q1, c, q2] => q1 = quoteChar && q2 = quoteChar && c ≠ quoteChar
     | _ => false)
    ||
    (match rest with
     | '-' :: ds => isDigits ds
     | ds => isDigits ds)
  | _ => false

/-- Word characters of the regex class `\w` (ASCII). -/
def isWordChar (c : Char) : Bool :=
  c.isAlpha || c.isDigit || c = '_'

/-- `AssemblerPass1.add_symbol`: add or update a symbol.  A present name
keeps its record unless a new address is supplied, in which case address
is overwritten and `defined` is or-ed; an absent name is appended; an
undefined addition records the line as a forward reference. -/
def add_symbol (st : P1State) (name : String) (address : Option Int)
    (defined : Bool) (line_no : Nat) : P1State :=
  let t1 :=
    if st.symtab.any (fun s => s.name = name) then
      st.symtab.map (fun s =>
        if s.name = name then
          match address with
          | some a => { s with address := some a, defined := defined || s.defined }
          | none => s
        else s)
    else
      st.symtab ++ [{ name := name, address := address, defined := defined,
                      forward_references := [] }]
  let t2 :=
    if !defined then
      t1.map (fun s =>
        if s.name = name then
          { s with forward_references := s.forward_references ++ [line_no] }
        else s)
    else t1
  { st with symtab := t2 }

/-- `AssemblerPass1.add_literal`: append a not-yet-present literal,
opening a pool if none is open. -/
def add_literal (st : P1State) (lit : String) : P1State :=
  if st.littab.any (fun l => l.literal = lit) then st
  else
    let pooltab := if st.pooltab.isEmpty then st.pooltab ++ [st.littab.length]
                   else st.pooltab
    { st with pooltab := pooltab, littab := st.littab ++ [⟨lit, none⟩] }

/-- The loop body of `process_literal_pool`: walk the tail of the literal
table, giving each address-less literal the next location-counter value. -/
def assignLits : List Literal → Int → List Literal × Int
  | [], loc => ([], loc)
  | l :: ls, loc =>
    match l.address with
    | none =>
      let r := assignLits ls (loc + 1)
      ({ l with address := some loc } :: r.1, r.2)
    | some _ =>
      let r := assignLits ls loc
      (l :: r.1, r.2)

/-- `AssemblerPass1.process_literal_pool`: pop the last open pool index
and assign addresses from the location counter onwards to every
unaddressed literal from that index to the end of the table. -/
def process_literal_pool (st : P1State) : P1State :=
  match st.pooltab.getLast? with
  | none => st
  | some pool_start =>
    let r := assignLits (st.littab.drop pool_start) st.locctr
    { st with pooltab := st.pooltab.dropLast,
              littab := st.littab.take pool_start ++ r.1,
              locctr := r.2 }

/-- `while self.pooltab: self.process_literal_pool()` — each iteration
removes one pool entry, so `pooltab.length` rounds empty the table. -/
def flushPoolsFuel : Nat → P1State → P1State
  | 0, st => st
  | n + 1, st =>
    if st.pooltab.isEmpty then st else flushPoolsFuel n (process_literal_pool st)

/-- Flush every still-open literal pool (the `END` / end-of-source loop). -/
def flushAllPools (st : P1State) : P1State :=
  flushPoolsFuel st.pooltab.length st

/-- `AssemblerPass1.evaluate_expression`: a plain integer, or
`SYMBOL[+|-]offset` resolved through the symbol table; `none` when
unresolved. -/
def evaluate_expression (symtab : List Symbol) (expr : String) : Option Int :=
  let e := ((expr.toList.filter (fun c => c ≠ ' ')).asString)
  if isIntToken e then some (intTokenVal e)
  else
    match e.toList with
    | c :: rest =>
      if c.isAlpha || c = '_' then
        let w := rest.takeWhile isWordChar
        let tl := rest.dropWhile isWordChar
        let sym_name := (c :: w).asString
        let off? : Option (Option Int) :=
          match tl with
          | [] => some none
          | '+' :: ds => if isDigits ds then some (some ((digitsToNat ds : Nat) : Int)) else none
          | '-' :: ds => if isDigits ds then some (some (-((digitsToNat ds : Nat) : Int))) else none
          | _ => none
        match off? with
        | none => none
        | some off =>
          match (symtab.find? (fun s => s.name = sym_name)).bind (fun s => s.address) with
          | none => none
          | some base => some (base + off.getD 0)
      else none
    | [] => none

/-- `AssemblerPass1.parse_line`: strip a `;`/`#` comment, tokenize, peel
an explicit (`:`-suffixed) or heuristic label, uppercase the opcode and
normalize the comma-separated operand string. -/
def parse_line (line : String) : Option String × Option String × Option String :=
  let line_nocom := pyStrip ((line.toList.takeWhile (fun c => c ≠ ';' && c ≠ '#')).asString)
  if line_nocom = "" then (none, none, none)
  else
    let tokens0 := pySplit line_nocom
    let p1 : Option String × List String :=
      match tokens0 with
      | t :: rest => if pyEndsWith t ":" then (some (pyDropLast t), rest) else (none, tokens0)
      | [] => (none, tokens0)
    let p2 : Option String × List String :=
      if p1.1 = none && 2 ≤ p1.2.length then
        match p1.2 with
        | t :: rest =>
          let t0 := pyUpper t
          if !isOpcode t0 && !DIRECTIVES.contains t0 && !is_register t0 && !is_literal t0
          then (some t, rest) else (p1.1, p1.2)
        | [] => (p1.1, p1.2)
      else (p1.1, p1.2)
    match p2.2 with
    | [] => (p2.1, none, none)
    | t :: rest =>
      let opcode := pyUpper t
      let operands :=
        if rest.isEmpty then none
        else some (joinWith "," ((pySplitComma (joinWith " " rest)).map pyStrip))
      (p2.1, some opcode, operands)

/-- The `START` branch of `AssemblerPass1.process` (source lines 210-225):
set the start address / location counter, define the label, record the
line. -/
def startStep (st : P1State) (label : Option String) (operands : Option String)
    (line_no : Nat) (raw_line : String) : P1State :=
  let st :=
    match operands with
    | some ops =>
      if ops = "" then { st with start_address := 0, locctr := 0 }
      else
        match pyInt? ops with
        | some v => { st with start_address := v, locctr := v }
        | none =>
          { st with locctr := (evaluate_expression st.symtab ops).getD 0 }
    | none => { st with start_address := 0, locctr := 0 }
  let st :=
    match label with
    | some lbl => if lbl = "" then st else add_symbol st lbl (some st.locctr) true line_no
    | none => st
  { st with intermediate_records :=
      st.intermediate_records ++ [(some st.locctr, pyRstrip raw_line)] }

/-- The directive dispatch of `AssemblerPass1.process` (source lines
242-279), for a directive other than `START`. -/
def directiveStep (st : P1State) (op : String) (label : Option String)
    (operands : Option String) (line_no : Nat) : P1State :=
  if op = "END" then flushAllPools st
  else if op = "LTORG" then process_literal_pool st
  else if op = "ORIGIN" then
    match operands with
    | some ops =>
      if ops = "" then st
      else
        let val :=
          match evaluate_expression st.symtab ops with
          | some v => some v
          | none => pyInt? ops
        match val with
        | some v => { st with locctr := v }
        | none => st
    | none => st
  else if op = "EQU" then
    match label, operands with
    | some lbl, some ops =>
      if lbl = "" || ops = "" then st
      else
        let val := evaluate_expression st.symtab ops
        add_symbol st lbl val val.isSome line_no
    | _, _ => st
  else if op = "DS" then
    let size : Int :=
      match operands with
      | some ops =>
        if ops = "" then 1
        else
          match pyInt? ops with
          | some v => v
          | none => (evaluate_expression st.symtab ops).getD 1
      | none => 1
    { st with locctr := st.locctr + size }
  else if op = "DC" then { st with locctr := st.locctr + 1 }
  else st

/-- Operand scan of an imperative statement (source lines 286-300):
registers and plain integers are skipped, literal-syntax operands enter
the literal table, anything else is a symbol reference. -/
def operandStep (st : P1State) (op : String) (line_no : Nat) : P1State :=
  if is_register op then st
  else if is_literal op then add_literal st op
  else if isIntToken op then st
  else if st.symtab.any (fun s => s.name = op) then
    { st with symtab := st.symtab.map (fun s =>
        if s.name = op && !s.defined then
          { s with forward_references := s.forward_references ++ [line_no] }
        else s) }
  else add_symbol st op none false line_no

/-- The imperative-statement branch of `AssemblerPass1.process` (source
lines 282-303): scan the comma-split operands, then advance the location
counter by the opcode length. -/
def opcodeStep (st : P1State) (op : String) (operands : Option String)
    (line_no : Nat) : P1State :=
  let ops : List String :=
    match operands with
    | some s => ((pySplitComma s).map pyStrip).filter (fun o => o ≠ "")
    | none => []
  let st := ops.foldl (fun st o => operandStep st o line_no) st
  { st with locctr := st.locctr + (opcodeLen op : Int) }

/-- One iteration of the `process` loop over a source line, returning the
new state and the new `started` flag. -/
def step (st : P1State) (started : Bool) (line_no : Nat) (raw_line : String) :
    P1State × Bool :=
  let p := parse_line raw_line
  let label := p.1
  let opcode := p.2.1
  let operands := p.2.2
  if opcode = none && label = none then
    ({ st with intermediate_records :=
        st.intermediate_records ++ [(none, pyRstrip raw_line)] }, started)
  else if opcode = some "START" then
    (startStep st label operands line_no raw_line, true)
  else
    let st := if started then st else { st with start_address := 0, locctr := 0 }
    let st :=
      match label with
      | some lbl => if lbl = "" then st else add_symbol st lbl (some st.locctr) true line_no
      | none => st
    let st := { st with intermediate_records :=
        st.intermediate_records ++ [(some st.locctr, pyRstrip raw_line)] }
    match opcode with
    | none => (st, true)
    | some op =>
      if DIRECTIVES.contains op then (directiveStep st op label operands line_no, true)
      else if isOpcode op then (opcodeStep st op operands line_no, true)
      else (st, true)

/-- The fresh state built by `AssemblerPass1.__init__`. -/
def initState : P1State :=
  { symtab := [], littab := [], pooltab := [], locctr := 0, start_address := 0,
    intermediate_records := [] }

/-- The tail of the `process` loop from a given state, `started` flag and
already-consumed line count; the final end-of-source pool flush happens
when the lines run out. -/
def processFrom (st : P1State) (started : Bool) (line_no : Nat) :
    List String → P1State
  | [] => flushAllPools st
  | l :: ls =>
    let r := step st started (line_no + 1) l
    processFrom r.1 r.2 (line_no + 1) ls

/-- `AssemblerPass1.process` run on a list of source lines. -/
def process (source_lines : List String) : P1State :=
  processFrom initState false 0 source_lines

/-! ## Pass-II macro processor (`macro_pass2.py`) -/

/-- The macro-name table: insertion-ordered rows `(name, mdt_index,
num_params)` with the overwriting insert of a Python `dict`. -/
abbrev MNT : Type := List (String × Int × Int)

/-- The macro-definition table: rows `(index, text)` with distinct
indices, modelling `Dict[int, str]`. -/
abbrev MDT : Type := List (Int × String)

/-- `dict` assignment `mnt[name] = v`: overwrite in place or append. -/
def mntInsert (mnt : MNT) (name : String) (v : Int × Int) : MNT :=
  if mnt.any (fun e => e.1 = name) then
    mnt.map (fun e => if e.1 = name then (name, v) else e)
  else mnt ++ [(name, v)]

/-- `name in mnt` membership test. -/
def mntMem (mnt : MNT) (name : String) : Bool :=
  mnt.any (fun e => e.1 = name)

/-- `mnt[name]` lookup. -/
def mntLookup (mnt : MNT) (name : String) : Option (Int × Int) :=
  (mnt.find? (fun e => e.1 = name)).map (fun e => e.2)

/-- `idx in mdt` / `mdt[idx]` lookup. -/
def mdtLookup (mdt : MDT) (idx : Int) : Option String :=
  (mdt.find? (fun e => e.1 = idx)).map (fun e => e.2)

/-- The header test of `read_mnt`:
`line.upper().startswith("NAME") and "MDT" in line.upper()`. -/
def isMntHeader (line : String) : Bool :=
  pyStartsWith (pyUpper line) "NAME" && containsSub (pyUpper line) "MDT"

/-- The loop of `read_mnt` (source lines 39-61), carrying the table built
so far: blank lines and the header are ignored, a row of fewer than two
tokens or with a non-integer index is skipped, a non-integer param count
defaults to `0`. -/
def read_mnt_aux (mnt : MNT) : List String → MNT
  | [] => mnt
  | l :: rest =>
    let line := pyStrip l
    if line = "" then read_mnt_aux mnt rest
    else if isMntHeader line then read_mnt_aux mnt rest
    else
      let parts := pySplit line
      if parts.length < 2 then read_mnt_aux mnt rest
      else
        match pyInt? (parts.getD 1 "") with
        | none => read_mnt_aux mnt rest
        | some mdt_index =>
          let num_params : Int :=
            if 3 ≤ parts.length then (pyInt? (parts.getD 2 "")).getD 0 else 0
          read_mnt_aux (mntInsert mnt (parts.getD 0 "") (mdt_index, num_params)) rest

/-- `read_mnt` on the list of lines of `MNT.txt`. -/
def read_mnt (lines : List String) : MNT :=
  read_mnt_aux [] lines

/-- `parse_macro_call_line`: find the first whitespace token that names a
macro; the prefix is the text before the first *substring* occurrence of
that token, the actual arguments are the comma-split, trimmed, non-empty
pieces of the text after that occurrence. -/
def parse_macro_call_line (line : String) (mnt : MNT) :
    Option (String × String × List String) :=
  if pyStrip line = "" then none
  else
    match (pySplit line).find? (fun tok => mntMem mnt tok) with
    | none => none
    | some tok =>
      match strFind? line tok with
      | none => none
      | some tok_pos =>
        let cs := line.toList
        let pfx := (cs.take tok_pos).asString
        let rest := pyStrip ((cs.drop (tok_pos + tok.length)).asString)
        let args :=
          if rest = "" then []
          else ((pySplitComma rest).map pyStrip).filter (fun a => a ≠ "")
        some (pfx, tok, args)

/-- Recognize the regex `\(P\s*,\s*(\d+)\)` at the head of a character
list, returning the captured index and the characters after the match. -/
def matchParamTok (l : List Char) : Option (Nat × List Char) :=
  match l with
  | c1 :: c2 :: cs =>
    if c1 = '(' && c2 = 'P' then
      match cs.dropWhile Char.isWhitespace with
      | c3 :: cs2 =>
        if c3 = ',' then
          let cs3 := cs2.dropWhile Char.isWhitespace
          let ds := cs3.takeWhile Char.isDigit
          if ds.isEmpty then none
          else
            match cs3.dropWhile Char.isDigit with
            | c4 :: rest => if c4 = ')' then some (digitsToNat ds, rest) else none
            | [] => none
        else none
      | [] => none
    else none
  | _ => none

/-- The replacement function `repl` of `substitute_params_in_mdt_line`:
the `i`-th actual argument for an in-range 1-based `i`, empty text
otherwise. -/
def replParam (actual_args : List String) (i : Nat) : String :=
  if 1 ≤ i ∧ i ≤ actual_args.length then actual_args.getD (i - 1) "" else ""

theorem length_dropWhile_le (p : Char → Bool) (l : List Char) :
    (l.dropWhile p).length ≤ l.length := by
  induction l with
  | nil => simp
  | cons c cs ih =>
    by_cases h : p c
    · simp only [List.dropWhile_cons, h, if_true]
      exact Nat.le_trans ih (Nat.le_succ _)
    · simp [List.dropWhile_cons, h]

theorem matchParamTok_shrinks {l : List Char} {i : Nat} {rest : List Char}
    (h : matchParamTok l = some (i, rest)) : rest.length < l.length := by
  match l with
  | [] => simp [matchParamTok] at h
  | [c] => simp [matchParamTok] at h
  | c1 :: c2 :: cs =>
    simp only [matchParamTok] at h
    by_cases h12 : c1 = '(' && c2 = 'P'
    · simp only [h12, if_true] at h
      have hdw : (cs.dropWhile Char.isWhitespace).length ≤ cs.length :=
        length_dropWhile_le _ _
      match hcs : cs.dropWhile Char.isWhitespace with
      | [] => rw [hcs] at h; simp at h
      | c3 :: cs2 =>
        rw [hcs] at h hdw
        by_cases h3 : c3 = ','
        · simp only [h3, if_true] at h
          have hdw2 : (cs2.dropWhile Char.isWhitespace).length ≤ cs2.length :=
            length_dropWhile_le _ _
          by_cases hds : ((cs2.dropWhile Char.isWhitespace).takeWhile Char.isDigit).isEmpty
          · simp [hds] at h
          · simp only [hds, if_false, Bool.false_eq_true] at h
            have hdw3 :
                ((cs2.dropWhile Char.isWhitespace).dropWhile Char.isDigit).length ≤
                  (cs2.dropWhile Char.isWhitespace).length :=
              length_dropWhile_le _ _
            match hcs3 : (cs2.dropWhile Char.isWhitespace).dropWhile Char.isDigit with
            | [] => rw [hcs3] at h; simp at h
            | c4 :: rest2 =>
              rw [hcs3] at h hdw3
              by_cases h4 : c4 = ')'
              · simp only [h4, if_true, Option.some.injEq, Prod.mk.injEq] at h
                have : rest = rest2 := h.2.symm
                subst this
                simp only [List.length_cons] at hdw hdw3 ⊢
                omega
              · simp [h4] at h
        · simp [h3] at h
    · simp [h12] at h

/-- The scan of `re.sub` with `PARAM_TOKEN_RE`, written with explicit
fuel so that it is structurally recursive: by `matchParamTok_shrinks`,
fuel equal to the list length is always sufficient, so `paramSub` below
is the exact left-to-right, non-overlapping replacement scan. -/
def paramSubFuel (actual_args : List String) : Nat → List Char → List Char
  | 0, _ => []
  | _ + 1, [] => []
  | fuel + 1, c :: cs =>
    match matchParamTok (c :: cs) with
    | some r => (replParam actual_args r.1).toList ++ paramSubFuel actual_args fuel r.2
    | none => c :: paramSubFuel actual_args fuel cs

/-- The `re.sub` scan over a character list. -/
def paramSub (actual_args : List String) (l : List Char) : List Char :=
  paramSubFuel actual_args l.length l

theorem paramSubFuel_eq (actual_args : List String) :
    ∀ fuel, ∀ l : List Char, l.length ≤ fuel →
      paramSubFuel actual_args fuel l = paramSubFuel actual_args l.length l := by
  intro fuel
  induction fuel using Nat.strong_induction_on with
  | _ fuel ih =>
    match fuel with
    | 0 =>
      intro l hl
      match l with
      | [] => rfl
      | c :: cs => simp at hl
    | n + 1 =>
      intro l hl
      match l with
      | [] => rfl
      | c :: cs =>
        simp only [List.length_cons] at hl ⊢
        simp only [paramSubFuel]
        cases hm : matchParamTok (c :: cs) with
        | some r =>
          have hs := matchParamTok_shrinks hm
          simp only [List.length_cons] at hs
          dsimp only
          rw [ih n (Nat.lt_succ_self n) r.2 (by omega),
              ih cs.length (by omega) r.2 (by omega)]
        | none =>
          dsimp only
          rw [ih n (Nat.lt_succ_self n) cs (by omega)]

/-- The one-step unfolding of the `re.sub` scan. -/
theorem paramSub_cons (actual_args : List String) (c : Char) (cs : List Char) :
    paramSub actual_args (c :: cs) =
      match matchParamTok (c :: cs) with
      | some r => (replParam actual_args r.1).toList ++ paramSub actual_args r.2
      | none => c :: paramSub actual_args cs := by
  unfold paramSub
  simp only [List.length_cons, paramSubFuel]
  cases hm : matchParamTok (c :: cs) with
  | some r =>
    have hs := matchParamTok_shrinks hm
    simp only [List.length_cons] at hs
    dsimp only
    rw [paramSubFuel_eq actual_args cs.length r.2 (by omega)]
  | none => rfl

/-- `substitute_params_in_mdt_line`. -/
def substitute_params_in_mdt_line (mdt_line : String) (actual_args : List String) :
    String :=
  (paramSub actual_args mdt_line.toList).asString

/-- The inner `while True` of `expand_intermediate` (source lines
169-194): walk the MDT from `idx`, stopping at a missing index or a
`MEND` line, suppressing lines whose first token is the macro name, and
emitting every other line prefixed and substituted.  The fuel
`mdt.length + 1` exceeds the length of any run of consecutive present
indices, so the loop semantics are exact. -/
def expandLoop (mname pfx : String) (args : List String) (mdt : MDT) :
    Nat → Int → List String
  | 0, _ => []
  | fuel + 1, idx =>
    match mdtLookup mdt idx with
    | none => []
    | some text =>
      let mdt_text := pyRstrip text
      if pyUpper (pyStrip mdt_text) = "MEND" then []
      else
        let first_token := (pySplit (pyStrip mdt_text)).headD ""
        if first_token = mname then expandLoop mname pfx args mdt fuel (idx + 1)
        else
          (pfx ++ substitute_params_in_mdt_line mdt_text args) ::
            expandLoop mname pfx args mdt fuel (idx + 1)

/-- The per-line body of `expand_intermediate`: a line with no macro call
is copied; a macro call is replaced by its expansion. -/
def expand_line (mnt : MNT) (mdt : MDT) (line : String) : List String :=
  match parse_macro_call_line line mnt with
  | none => [line]
  | some (pfx, mname, args) =>
    match mntLookup mnt mname with
    | none => []
    | some v => expandLoop mname pfx args mdt (mdt.length + 1) v.1

/-- `expand_intermediate` on the list of input lines, returning the list
of output lines. -/
def expand_intermediate (lines : List String) (mnt : MNT) (mdt : MDT) :
    List String :=
  (lines.map (expand_line mnt mdt)).flatten

/-! ## Claim theorems -/

/-- C1: running Pass-I on `START 100` / `A MOVER AREG, =5` / `LTORG` /
`END` defines symbol `A` at address 100, records literal `=5` with
address 101 assigned at the `LTORG`, and leaves the location counter at
102 (the `END` line consumes no space, so the counter still holds the
value reached when the `LTORG` line was processed). -/
theorem c1_pass1_example :
    process ["START 100", "A MOVER AREG, =5", "LTORG", "END"] =
      { symtab := [{ name := "A", address := some 100, defined := true,
                     forward_references := [] }],
        littab := [{ literal := "=5", address := some 101 }],
        pooltab := [],
        locctr := 102,
        start_address := 100,
        intermediate_records := [(some 100, "START 100"),
                                 (some 100, "A MOVER AREG, =5"),
                                 (some 101, "LTORG"),
                                 (some 102, "END")] } := by rfl

/-- C4: with MNT row `INCR 10 2` and MDT rows `10 ↦ INCR (P,1),(P,2)`,
`11 ↦ ADD (P,1),(P,2)`, `12 ↦ MEND`, expanding the single line
`  INCR X,5` emits exactly the one line `  ADD X,5`: the header line at
index 10 is suppressed and the `MEND` line is excluded. -/
theorem c4_expand_example :
    expand_intermediate ["  INCR X,5"] [("INCR", 10, 2)]
        [(10, "INCR (P,1),(P,2)"), (11, "ADD (P,1),(P,2)"), (12, "MEND")] =
      ["  ADD X,5"] := by rfl

/-- C9: comma-separated argument segments that are empty after trimming
are dropped, so `  INCR X,,Y` parses to the argument list `["X", "Y"]`
(the later argument shifts down to position 2) and `(P,2)` is then
substituted with `Y` rather than with empty text. -/
theorem c9_empty_arg_segments_dropped :
    parse_macro_call_line "  INCR X,,Y" [("INCR", 10, 2)] =
        some ("  ", "INCR", ["X", "Y"]) ∧
    substitute_params_in_mdt_line "MOVER AREG,(P,2)" ["X", "Y"] =
        "MOVER AREG,Y" := ⟨by rfl, by rfl⟩

/-- Counterexample to C3: in the two-line program `A DS 1` / `A DS 1`
the symbol `A` becomes defined with address 0 at line 1, yet the label
definition at line 2 overwrites the stored address with 1
(`add_symbol` assigns `sym.address = address` whenever a new address is
supplied, defined or not), so a defined symbol's address is *not*
immutable for the remainder of the pass. -/
theorem c3_counterexample :
    (process ["A DS 1"]).symtab =
        [{ name := "A", address := some 0, defined := true,
           forward_references := [] }] ∧
    (process ["A DS 1", "A DS 1"]).symtab =
        [{ name := "A", address := some 1, defined := true,
           forward_references := [] }] := ⟨by rfl, by rfl⟩

/-- Counterexample to C7: in the MNT row `INCR 10 X` the param-count
token `X` is not an integer, yet the row is *not* skipped: `read_mnt`
loads it with the param count defaulted to 0, so an entry for its name
does appear in the loaded mapping. -/
theorem c7_counterexample :
    pyInt? "X" = none ∧
    read_mnt ["INCR 10 X"] = [("INCR", 10, 0)] ∧
    mntMem (read_mnt ["INCR 10 X"]) "INCR" = true := ⟨by rfl, by rfl, by rfl⟩

/-- Counterexample to C6: in the line `XINCR INCR 1` with macro `INCR`,
the detected macro-name token is the second whitespace token `INCR`
(the first token `XINCR` names no macro), and the text of the line
preceding that token is `"XINCR "`; but the prefix is computed from the
first *substring* occurrence of `INCR`, which lies inside `XINCR`, so
the emitted body line is `XADD INCR 1,` — it does not carry `"XINCR "`
verbatim. -/
theorem c6_counterexample :
    pySplit "XINCR INCR 1" = ["XINCR", "INCR", "1"] ∧
    mntMem [("INCR", 10, 2)] "XINCR" = false ∧
    mntMem [("INCR", 10, 2)] "INCR" = true ∧
    parse_macro_call_line "XINCR INCR 1" [("INCR", 10, 2)] =
        some ("X", "INCR", ["INCR 1"]) ∧
    expand_intermediate ["XINCR INCR 1"] [("INCR", 10, 2)]
        [(10, "INCR (P,1),(P,2)"), (11, "ADD (P,1),(P,2)"), (12, "MEND")] =
      ["XADD INCR 1,"] ∧
    pyStartsWith "XADD INCR 1," "XINCR " = false :=
  ⟨by rfl, by rfl, by rfl, by rfl, by rfl, by rfl⟩

/-- Counterexample to C10: in `START 100` / `X EQU FOO` / `END` the
operand `FOO` of the `EQU` is unresolved, yet `X` is *not* left
undefined with no address: the generic label handling of `process` has
already defined `X` at the current location counter (address 100,
`defined = true`) before the `EQU` branch runs; the `EQU` branch then
appends the line number 2 to `X`'s forward-reference list. -/
theorem c10_counterexample :
    (process ["START 100", "X EQU FOO", "END"]).symtab =
      [{ name := "X", address := some 100, defined := true,
         forward_references := [2] }] := by rfl

/-! ## C2: contiguity of every literal-pool flush -/

/-- The addresses assigned by one transformation of the literal table:
for every position whose literal had no address before, the address it
holds afterwards (in table order). -/
def assignedAddrs (before after : List Literal) : List Int :=
  (before.zip after).filterMap
    (fun p => if p.1.address = none then p.2.address else none)

/-- The number of literals still awaiting an address. -/
def pendingCount (ls : List Literal) : Nat :=
  (ls.filter (fun l => l.address = none)).length

theorem assignedAddrs_self (a : List Literal) : assignedAddrs a a = [] := by
  induction a with
  | nil => rfl
  | cons x xs ih =>
    unfold assignedAddrs at ih ⊢
    rw [List.zip_cons_cons, List.filterMap_cons]
    cases h : x.address <;> simp [h, ih]

theorem assignedAddrs_append (a b c d : List Literal) (h : a.length = b.length) :
    assignedAddrs (a ++ c) (b ++ d) = assignedAddrs a b ++ assignedAddrs c d := by
  unfold assignedAddrs
  rw [List.zip_append h, List.filterMap_append]

theorem assignedAddrs_pre (a b res : List Literal) :
    assignedAddrs (a ++ b) (a ++ res) = assignedAddrs b res := by
  rw [assignedAddrs_append a a b res rfl, assignedAddrs_self, List.nil_append]

theorem assignedAddrs_flush (L : List Literal) (p : Nat) (loc : Int) :
    assignedAddrs L (L.take p ++ (assignLits (L.drop p) loc).1) =
      assignedAddrs (L.drop p) (assignLits (L.drop p) loc).1 := by
  nth_rewrite 1 [← List.take_append_drop p L]
  exact assignedAddrs_pre _ _ _

theorem pendingCount_cons (l : Literal) (ls : List Literal) :
    pendingCount (l :: ls) =
      (if l.address = none then 1 else 0) + pendingCount ls := by
  by_cases h : l.address = none <;>
    simp [pendingCount, List.filter_cons, h, Nat.add_comm]

theorem assignLits_spec (ls : List Literal) (loc : Int) :
    assignedAddrs ls (assignLits ls loc).1 =
      (List.range (pendingCount ls)).map (fun i : Nat => loc + (i : Int)) ∧
    (assignLits ls loc).2 = loc + (pendingCount ls : Int) := by
  induction ls generalizing loc with
  | nil => simp [assignLits, assignedAddrs, pendingCount]
  | cons l ls ih =>
    cases h : l.address with
    | none =>
      have ih1 := (ih (loc + 1)).1
      have ih2 := (ih (loc + 1)).2
      rw [pendingCount_cons, h, if_pos rfl, Nat.add_comm 1 (pendingCount ls)]
      constructor
      · unfold assignedAddrs at ih1 ⊢
        simp only [assignLits, h]
        rw [List.zip_cons_cons, List.filterMap_cons]
        simp only [h, if_true]
        rw [ih1, List.range_succ_eq_map, List.map_cons, List.map_map]
        simp only [Nat.cast_zero, add_zero]
        congr 1
        apply List.map_congr_left
        intro i _
        simp only [Function.comp_apply]
        push_cast
        ring
      · simp only [assignLits, h, ih2]
        push_cast
        ring
    | some a =>
      have ih1 := (ih loc).1
      have ih2 := (ih loc).2
      rw [pendingCount_cons, h]
      simp only [reduceCtorEq, if_false, Nat.zero_add]
      constructor
      · unfold assignedAddrs at ih1 ⊢
        simp only [assignLits, h]
        rw [List.zip_cons_cons, List.filterMap_cons]
        rw [if_neg (by simp [h])]
        exact ih1
      · simp only [assignLits, h, ih2]

/-- C2: for every flush of a literal pool (`process_literal_pool`, hence
every flush performed during Pass-I), the addresses assigned at that
flush, read in table order, are exactly the contiguous, strictly
increasing run from the location counter at flush time to that value
plus the number of literals addressed minus one, and the location
counter advances by one per addressed literal. -/
theorem c2_pool_flush_contiguous (st : P1State) :
    assignedAddrs st.littab (process_literal_pool st).littab =
      (List.range
          (assignedAddrs st.littab (process_literal_pool st).littab).length).map
        (fun i : Nat => st.locctr + (i : Int)) ∧
    (process_literal_pool st).locctr =
      st.locctr +
        ((assignedAddrs st.littab (process_literal_pool st).littab).length : Int) := by
  unfold process_literal_pool
  cases hp : st.pooltab.getLast? with
  | none => simp [assignedAddrs_self]
  | some pool_start =>
    dsimp only
    have hs := assignLits_spec (st.littab.drop pool_start) st.locctr
    rw [assignedAddrs_flush]
    constructor
    · rw [hs.1, List.length_map, List.length_range]
    · rw [hs.2, hs.1, List.length_map, List.length_range]

/-! ## C8: unknown opcodes leave the counter alone but are recorded -/

theorem add_symbol_eff (st : P1State) (nm : String) (a : Option Int)
    (d : Bool) (ln : Nat) :
    (add_symbol st nm a d ln).littab = st.littab ∧
    (add_symbol st nm a d ln).pooltab = st.pooltab ∧
    (add_symbol st nm a d ln).locctr = st.locctr ∧
    (add_symbol st nm a d ln).start_address = st.start_address ∧
    (add_symbol st nm a d ln).intermediate_records = st.intermediate_records := by
  simp [add_symbol]

/-- C8: a line whose parsed opcode is neither a directive nor a known
opcode leaves the location counter unchanged, yet still appends the
record `(current counter, rstripped line)` to the intermediate stream. -/
theorem c8_unknown_opcode (st : P1State) (n : Nat) (raw : String)
    (lbl : Option String) (op : String) (ops : Option String)
    (hp : parse_line raw = (lbl, some op, ops))
    (hd : DIRECTIVES.contains op = false)
    (ho : isOpcode op = false) :
    (step st true n raw).1.locctr = st.locctr ∧
    (step st true n raw).1.intermediate_records =
      st.intermediate_records ++ [(some st.locctr, pyRstrip raw)] := by
  have hstart : op ≠ "START" := by
    intro h
    subst h
    exact absurd hd (by decide)
  have hd2 : op ∉ DIRECTIVES := by simpa using hd
  unfold step
  rw [hp]
  dsimp only
  rw [if_neg (by simp), if_neg (by simp [hstart]), if_pos rfl]
  cases lbl with
  | none =>
    dsimp only
    simp [hd2, ho]
  | some l =>
    by_cases hl : l = ""
    · simp [hl, hd2, ho]
    · simp only [hl, if_false, reduceIte]
      have he := add_symbol_eff st l (some st.locctr) true n
      simp [hd2, ho, he.2.2.1, he.2.2.2.2]

/-- Witness for C8 at the concrete line `FOO` (a single unknown opcode)
in a state whose location counter is 7. -/
theorem c8_unknown_opcode_witness :
    parse_line "FOO" = (none, some "FOO", none) ∧
    DIRECTIVES.contains "FOO" = false ∧
    isOpcode "FOO" = false ∧
    (step ⟨[], [], [], 7, 0, []⟩ true 1 "FOO").1.locctr =
      (⟨[], [], [], 7, 0, []⟩ : P1State).locctr ∧
    (step ⟨[], [], [], 7, 0, []⟩ true 1 "FOO").1.intermediate_records =
      (⟨[], [], [], 7, 0, []⟩ : P1State).intermediate_records ++
        [(some (⟨[], [], [], 7, 0, []⟩ : P1State).locctr, pyRstrip "FOO")] :=
  ⟨by decide, by decide, by decide,
   (c8_unknown_opcode ⟨[], [], [], 7, 0, []⟩ 1 "FOO" none "FOO" none
      (by decide) (by decide) (by decide)).1,
   (c8_unknown_opcode ⟨[], [], [], 7, 0, []⟩ 1 "FOO" none "FOO" none
      (by decide) (by decide) (by decide)).2⟩

/-! ## C3 (amended): what survives of symbol-address immutability -/

/-- The first per-symbol update of `add_symbol` (address overwrite). -/
def symUpd1 (nm : String) (addr : Option Int) (d : Bool) (x : Symbol) : Symbol :=
  if x.name = nm then
    match addr with
    | some a => { x with address := some a, defined := d || x.defined }
    | none => x
  else x

/-- The second per-symbol update of `add_symbol` (forward-reference
append for an undefined addition). -/
def symUpd2 (nm : String) (ln : Nat) (x : Symbol) : Symbol :=
  if x.name = nm then { x with forward_references := x.forward_references ++ [ln] }
  else x

/-- `add_symbol`'s symbol table, written through the named updates. -/
theorem add_symbol_symtab_eq (st : P1State) (nm : String) (addr : Option Int)
    (d : Bool) (ln : Nat) :
    (add_symbol st nm addr d ln).symtab =
      (if !d then
        (if st.symtab.any (fun x => x.name = nm) then st.symtab.map (symUpd1 nm addr d)
         else st.symtab ++ [⟨nm, addr, d, []⟩]).map (symUpd2 nm ln)
       else
        (if st.symtab.any (fun x => x.name = nm) then st.symtab.map (symUpd1 nm addr d)
         else st.symtab ++ [⟨nm, addr, d, []⟩])) := rfl

theorem symUpd1_name (nm : String) (addr : Option Int) (d : Bool) (x : Symbol) :
    (symUpd1 nm addr d x).name = x.name := by
  unfold symUpd1
  split
  · cases addr <;> rfl
  · rfl

theorem symUpd2_name (nm : String) (ln : Nat) (x : Symbol) :
    (symUpd2 nm ln x).name = x.name := by
  unfold symUpd2
  split <;> rfl

theorem symUpd1_defined (nm : String) (addr : Option Int) (d : Bool) (x : Symbol)
    (h : x.defined = true) : (symUpd1 nm addr d x).defined = true := by
  unfold symUpd1
  split
  · cases addr
    · exact h
    · simp [h]
  · exact h

theorem symUpd2_defined (nm : String) (ln : Nat) (x : Symbol) :
    (symUpd2 nm ln x).defined = x.defined := by
  unfold symUpd2
  split <;> rfl

theorem symUpd2_address (nm : String) (ln : Nat) (x : Symbol) :
    (symUpd2 nm ln x).address = x.address := by
  unfold symUpd2
  split <;> rfl

theorem symUpd1_address_of (nm : String) (addr : Option Int) (d : Bool) (x : Symbol)
    (h : addr = none ∨ x.name ≠ nm) : (symUpd1 nm addr d x).address = x.address := by
  unfold symUpd1
  rcases h with h | h
  · subst h
    split <;> rfl
  · rw [if_neg h]

theorem symUpd1_address_some (nm : String) (a : Int) (d : Bool) (x : Symbol)
    (h : x.name = nm) : (symUpd1 nm (some a) d x).address = some a := by
  unfold symUpd1
  rw [if_pos h]

theorem symUpd1_fwd (nm : String) (addr : Option Int) (d : Bool) (x : Symbol) :
    (symUpd1 nm addr d x).forward_references = x.forward_references := by
  unfold symUpd1
  split
  · cases addr <;> rfl
  · rfl

theorem symUpd2_fwd (nm : String) (ln : Nat) (x : Symbol) :
    ∃ t, (symUpd2 nm ln x).forward_references = x.forward_references ++ t := by
  unfold symUpd2
  split
  · exact ⟨[ln], rfl⟩
  · exact ⟨[], by simp⟩

/-- C3 (amended): once a symbol's `defined` flag is true it stays true
through every later `add_symbol`, its forward-reference list is only
ever extended, and its address survives any `add_symbol` that carries
no address or a different name; but an `add_symbol` that redefines the
*same* name with a resolved address *overwrites* the stored address —
that overwrite is what refutes the immutability stated by the original
claim. -/
theorem c3_amended (st : P1State) (nm : String) (addr : Option Int)
    (d : Bool) (ln : Nat) (s : Symbol) (hs : s ∈ st.symtab)
    (hdef : s.defined = true) :
    ∃ s' ∈ (add_symbol st nm addr d ln).symtab,
      s'.name = s.name ∧ s'.defined = true ∧
      ((addr = none ∨ s.name ≠ nm) → s'.address = s.address) ∧
      (∀ a : Int, addr = some a → s.name = nm → s'.address = some a) ∧
      ∃ t, s'.forward_references = s.forward_references ++ t := by
  rw [add_symbol_symtab_eq]
  -- the base image of `s` before the optional forward-reference map
  have hbase :
      ∃ b ∈ (if st.symtab.any (fun x => x.name = nm) then
               st.symtab.map (symUpd1 nm addr d)
             else st.symtab ++ [⟨nm, addr, d, []⟩]),
        b = (if st.symtab.any (fun x => x.name = nm) then symUpd1 nm addr d s else s) := by
    by_cases hmem : st.symtab.any (fun x => x.name = nm) = true
    · rw [if_pos hmem, if_pos hmem]
      exact ⟨symUpd1 nm addr d s, List.mem_map_of_mem _ hs, rfl⟩
    · rw [if_neg hmem, if_neg hmem]
      exact ⟨s, List.mem_append_left _ hs, rfl⟩
  obtain ⟨b, hbmem, hbeq⟩ := hbase
  have hb_name : b.name = s.name := by
    rw [hbeq]
    split
    · exact symUpd1_name nm addr d s
    · rfl
  have hb_def : b.defined = true := by
    rw [hbeq]
    split
    · exact symUpd1_defined nm addr d s hdef
    · exact hdef
  have hb_addr_of : (addr = none ∨ s.name ≠ nm) → b.address = s.address := by
    intro h
    rw [hbeq]
    split
    · exact symUpd1_address_of nm addr d s h
    · rfl
  have hb_addr_some : ∀ a : Int, addr = some a → s.name = nm → b.address = some a := by
    intro a ha hn
    subst ha
    rw [hbeq]
    split
    · exact symUpd1_address_some nm a d s hn
    · rename_i hmem
      -- impossible: `s` itself witnesses the membership test
      exact absurd (List.any_eq_true.mpr ⟨s, hs, by simp [hn]⟩) hmem
  have hb_fwd : b.forward_references = s.forward_references := by
    rw [hbeq]
    split
    · exact symUpd1_fwd nm addr d s
    · rfl
  cases d with
  | true =>
    refine ⟨b, by simpa using hbmem, hb_name, hb_def, hb_addr_of, hb_addr_some, [],
      by simp [hb_fwd]⟩
  | false =>
    refine ⟨symUpd2 nm ln b, ?_, ?_, ?_, ?_, ?_, ?_⟩
    · simpa using List.mem_map_of_mem (symUpd2 nm ln) hbmem
    · rw [symUpd2_name, hb_name]
    · rw [symUpd2_defined]
      exact hb_def
    · intro h
      rw [symUpd2_address]
      exact hb_addr_of h
    · intro a ha hn
      rw [symUpd2_address]
      exact hb_addr_some a ha hn
    · obtain ⟨t, ht⟩ := symUpd2_fwd nm ln b
      exact ⟨t, by rw [ht, hb_fwd]⟩

/-- Witness for C3 (amended): the defined symbol `A` at address 0 in a
one-entry table, updated by `add_symbol` for the same name with
address 1. -/
theorem c3_amended_witness :
    (⟨"A", some 0, true, []⟩ : Symbol) ∈
        (⟨[⟨"A", some 0, true, []⟩], [], [], 1, 0, []⟩ : P1State).symtab ∧
    (⟨"A", some 0, true, []⟩ : Symbol).defined = true ∧
    ∃ s' ∈ (add_symbol ⟨[⟨"A", some 0, true, []⟩], [], [], 1, 0, []⟩
        "A" (some 1) true 2).symtab,
      s'.name = (⟨"A", some 0, true, []⟩ : Symbol).name ∧ s'.defined = true ∧
      ((some (1 : Int) = none ∨ (⟨"A", some 0, true, []⟩ : Symbol).name ≠ "A") →
        s'.address = (⟨"A", some 0, true, []⟩ : Symbol).address) ∧
      (∀ a : Int, some 1 = some a →
        (⟨"A", some 0, true, []⟩ : Symbol).name = "A" → s'.address = some a) ∧
      ∃ t, s'.forward_references =
        (⟨"A", some 0, true, []⟩ : Symbol).forward_references ++ t :=
  ⟨by decide, by decide,
   c3_amended ⟨[⟨"A", some 0, true, []⟩], [], [], 1, 0, []⟩ "A" (some 1) true 2
     ⟨"A", some 0, true, []⟩ (by decide) (by decide)⟩

/-! ## C10 (amended): EQU with an unresolved operand -/

theorem symUpd1_none (nm : String) (d : Bool) (x : Symbol) :
    symUpd1 nm none d x = x := by
  unfold symUpd1
  split <;> rfl

/-- Defining a fresh name appends a fresh record. -/
theorem add_symbol_new_defined (st : P1State) (nm : String) (a : Option Int)
    (ln : Nat) (hnew : st.symtab.any (fun x => x.name = nm) = false) :
    (add_symbol st nm a true ln).symtab = st.symtab ++ [⟨nm, a, true, []⟩] := by
  rw [add_symbol_symtab_eq]
  simp [hnew]

/-- C10 (amended): on an `EQU` line whose operand is unresolved (after
the generic label handling has run), the label is *not* left undefined
with no address: it has already been defined at the current location
counter (`process` defines every label before dispatching on the
opcode), and the `EQU` branch then appends the `EQU` line's own number
to that label's forward-reference list — so a forward-reference list
may indeed contain the line that attempted to define the symbol. -/
theorem c10_amended (st : P1State) (n : Nat) (raw : String)
    (lbl ops : String)
    (hp : parse_line raw = (some lbl, some "EQU", some ops))
    (hlbl : lbl ≠ "") (hops : ops ≠ "")
    (hnew : st.symtab.any (fun x => x.name = lbl) = false)
    (heval : evaluate_expression
        (st.symtab ++ [⟨lbl, some st.locctr, true, []⟩]) ops = none) :
    ∃ s' ∈ (step st true n raw).1.symtab,
      s'.name = lbl ∧ s'.address = some st.locctr ∧ s'.defined = true ∧
      s'.forward_references = [n] := by
  unfold step
  rw [hp]
  dsimp only
  rw [if_neg (by simp), if_neg (by simp), if_pos rfl, if_neg hlbl]
  rw [if_pos (by decide)]
  unfold directiveStep
  rw [if_neg (by decide), if_neg (by decide), if_neg (by decide), if_pos rfl]
  dsimp only
  rw [if_neg (by simp [hlbl, hops])]
  have hsym := add_symbol_new_defined st lbl (some st.locctr) n hnew
  have he := add_symbol_eff st lbl (some st.locctr) true n
  rw [hsym, heval, he.1, he.2.1, he.2.2.1, he.2.2.2.1, he.2.2.2.2]
  dsimp only [Option.isSome]
  have hany : (st.symtab ++ [(⟨lbl, some st.locctr, true, []⟩ : Symbol)]).any
      (fun x => x.name = lbl) = true := by
    rw [List.any_eq_true]
    exact ⟨⟨lbl, some st.locctr, true, []⟩, by simp, by simp⟩
  refine ⟨⟨lbl, some st.locctr, true, [n]⟩, ?_, rfl, rfl, rfl, rfl⟩
  have hsym2 : (add_symbol
      { symtab := st.symtab ++ [(⟨lbl, some st.locctr, true, []⟩ : Symbol)],
        littab := st.littab, pooltab := st.pooltab, locctr := st.locctr,
        start_address := st.start_address,
        intermediate_records :=
          st.intermediate_records ++ [(some st.locctr, pyRstrip raw)] }
      lbl none false n).symtab =
      ((st.symtab ++ [(⟨lbl, some st.locctr, true, []⟩ : Symbol)]).map
          (symUpd1 lbl none false)).map (symUpd2 lbl n) := by
    rw [add_symbol_symtab_eq]
    simp only [hany, if_true, Bool.not_false, reduceIte]
  rw [hsym2]
  have hme : (⟨lbl, some st.locctr, true, []⟩ : Symbol) ∈
      st.symtab ++ [(⟨lbl, some st.locctr, true, []⟩ : Symbol)] := by simp
  have h1 := List.mem_map_of_mem (symUpd1 lbl none false) hme
  have h2 := List.mem_map_of_mem (symUpd2 lbl n) h1
  have hcomp : symUpd2 lbl n (symUpd1 lbl none false
      (⟨lbl, some st.locctr, true, []⟩ : Symbol)) =
      (⟨lbl, some st.locctr, true, [n]⟩ : Symbol) := by
    rw [symUpd1_none]
    unfold symUpd2
    simp
  rw [hcomp] at h2
  exact h2

/-- Witness for C10 (amended) at the line `X EQU FOO` with `FOO`
undefined, in a started state whose location counter is 100. -/
theorem c10_amended_witness :
    parse_line "X EQU FOO" = (some "X", some "EQU", some "FOO") ∧
    ("X" : String) ≠ "" ∧ ("FOO" : String) ≠ "" ∧
    (⟨[], [], [], 100, 100, []⟩ : P1State).symtab.any
        (fun x => x.name = "X") = false ∧
    evaluate_expression
        ((⟨[], [], [], 100, 100, []⟩ : P1State).symtab ++
          [⟨"X", some (⟨[], [], [], 100, 100, []⟩ : P1State).locctr, true, []⟩])
        "FOO" = none ∧
    ∃ s' ∈ (step ⟨[], [], [], 100, 100, []⟩ true 2 "X EQU FOO").1.symtab,
      s'.name = "X" ∧
      s'.address = some (⟨[], [], [], 100, 100, []⟩ : P1State).locctr ∧
      s'.defined = true ∧ s'.forward_references = [2] :=
  ⟨by decide, by decide, by decide, by decide, by decide,
   c10_amended ⟨[], [], [], 100, 100, []⟩ 2 "X EQU FOO" "X" "FOO"
     (by decide) (by decide) (by decide) (by decide) (by decide)⟩

/-! ## C7 (amended): malformed MNT rows -/

/-- C7 (amended): a row whose *index* token is not an integer is skipped
entirely (no entry is inserted) and loading continues with the remaining
rows; but a row whose *param-count* token is not an integer is **not**
skipped — it is inserted with the param count defaulted to 0, and
loading likewise continues. -/
theorem c7_amended (acc1 acc2 : MNT) (l1 l2 : String) (r1 r2 : List String)
    (k : Int)
    (h1 : pyInt? ((pySplit (pyStrip l1)).getD 1 "") = none)
    (h2head : isMntHeader (pyStrip l2) = false)
    (h2idx : pyInt? ((pySplit (pyStrip l2)).getD 1 "") = some k)
    (h2len : 3 ≤ (pySplit (pyStrip l2)).length)
    (h2cnt : pyInt? ((pySplit (pyStrip l2)).getD 2 "") = none) :
    read_mnt_aux acc1 (l1 :: r1) = read_mnt_aux acc1 r1 ∧
    read_mnt_aux acc2 (l2 :: r2) =
      read_mnt_aux (mntInsert acc2 ((pySplit (pyStrip l2)).getD 0 "") (k, 0)) r2 := by
  constructor
  · rw [read_mnt_aux]
    by_cases he : pyStrip l1 = ""
    · rw [if_pos he]
    · rw [if_neg he]
      by_cases hh : isMntHeader (pyStrip l1) = true
      · rw [if_pos hh]
      · rw [if_neg hh]
        by_cases hl : (pySplit (pyStrip l1)).length < 2
        · rw [if_pos hl]
        · rw [if_neg hl]
          dsimp only
          rw [h1]
  · rw [read_mnt_aux]
    have he : pyStrip l2 ≠ "" := by
      intro h
      rw [h] at h2len
      exact absurd h2len (by decide)
    rw [if_neg he, if_neg (by simp [h2head]),
        if_neg (show ¬(pySplit (pyStrip l2)).length < 2 by omega)]
    dsimp only
    rw [h2idx, if_pos h2len, h2cnt]
    rfl

/-- Witness for C7 (amended): row `INCR X 2` (bad index, skipped) and
row `DECR 20 Y` (bad param count, kept with count 0). -/
theorem c7_amended_witness :
    pyInt? ((pySplit (pyStrip "INCR X 2")).getD 1 "") = none ∧
    isMntHeader (pyStrip "DECR 20 Y") = false ∧
    pyInt? ((pySplit (pyStrip "DECR 20 Y")).getD 1 "") = some 20 ∧
    3 ≤ (pySplit (pyStrip "DECR 20 Y")).length ∧
    pyInt? ((pySplit (pyStrip "DECR 20 Y")).getD 2 "") = none ∧
    read_mnt_aux [] ["INCR X 2"] = read_mnt_aux [] [] ∧
    read_mnt_aux [] ["DECR 20 Y"] =
      read_mnt_aux (mntInsert [] ((pySplit (pyStrip "DECR 20 Y")).getD 0 "") (20, 0)) [] :=
  ⟨by decide, by decide, by decide, by decide, by decide,
   (c7_amended [] [] "INCR X 2" "DECR 20 Y" [] [] 20
      (by decide) (by decide) (by decide) (by decide) (by decide)).1,
   (c7_amended [] [] "INCR X 2" "DECR 20 Y" [] [] 20
      (by decide) (by decide) (by decide) (by decide) (by decide)).2⟩

/-! ## C5: exactness of placeholder substitution -/

theorem digit_not_ws (c : Char) (h : c.isDigit = true) : c.isWhitespace = false := by
  by_cases hw : c.isWhitespace = true
  · exfalso
    simp only [Char.isWhitespace, Bool.or_eq_true, decide_eq_true_eq] at hw
    rcases hw with ((h1 | h1) | h1) | h1 <;> rw [h1] at h <;> exact absurd h (by decide)
  · simpa using hw

theorem takeWhile_digits (ds : List Char) (hd : ∀ c ∈ ds, c.isDigit = true)
    (b : Char) (hb : b.isDigit = false) (l : List Char) :
    (ds ++ b :: l).takeWhile Char.isDigit = ds ∧
    (ds ++ b :: l).dropWhile Char.isDigit = b :: l := by
  induction ds with
  | nil => simp [List.takeWhile_cons, List.dropWhile_cons, hb]
  | cons d ds ih =>
    have hdd : d.isDigit = true := hd d (by simp)
    have ih2 := ih (fun c hc => hd c (by simp [hc]))
    simp only [List.cons_append, List.takeWhile_cons, List.dropWhile_cons, hdd,
      if_true, ih2.1, ih2.2, and_self]

theorem matchParamTok_placeholder (ds v : List Char) (hne : ds ≠ [])
    (hd : ∀ c ∈ ds, c.isDigit = true) :
    matchParamTok ('(' :: 'P' :: ',' :: (ds ++ ')' :: v)) =
      some (digitsToNat ds, v) := by
  match ds, hne with
  | d :: ds', _ =>
    have hdd : d.isDigit = true := hd d (by simp)
    have hws2 : d.isWhitespace = false := digit_not_ws d hdd
    have htw := takeWhile_digits (d :: ds') hd ')' (by decide) v
    unfold matchParamTok
    dsimp only
    rw [if_pos (show (decide ('(' = '(') && decide ('P' = 'P')) = true by decide)]
    rw [List.dropWhile_cons, if_neg (show ¬(Char.isWhitespace ',' = true) by decide)]
    dsimp only
    rw [if_pos (show (',' : Char) = ',' from rfl)]
    rw [List.cons_append, List.dropWhile_cons,
        if_neg (show ¬(d.isWhitespace = true) by simp [hws2])]
    rw [← List.cons_append, htw.1, htw.2]
    rw [if_neg (show ¬((d :: ds').isEmpty = true) by simp)]
    dsimp only
    rw [if_pos (show (')' : Char) = ')' from rfl)]

theorem matchParamTok_none_of_ne (c : Char) (l : List Char) (h : c ≠ '(') :
    matchParamTok (c :: l) = none := by
  unfold matchParamTok
  match l with
  | [] => rfl
  | c2 :: cs => simp [h]

/-- C5: during macro-body substitution, a placeholder `(P,i)` occurring
after any placeholder-free text `u` is replaced by the literal value of
`actual_args[i-1]` when `1 ≤ i ≤ len(actual_args)`, and by the empty
string when `i` is out of that range (the placeholder is removed, not an
error); here `i = digitsToNat ds` for the digit string `ds` written in
the placeholder, and scanning then continues on the rest of the line. -/
theorem c5_substitution_exact (actual_args : List String) (ds u v : List Char)
    (hu : ∀ c ∈ u, c ≠ '(')
    (hne : ds ≠ []) (hd : ∀ c ∈ ds, c.isDigit = true) :
    paramSub actual_args (u ++ '(' :: 'P' :: ',' :: (ds ++ ')' :: v)) =
      u ++ ((if 1 ≤ digitsToNat ds ∧ digitsToNat ds ≤ actual_args.length
             then actual_args.getD (digitsToNat ds - 1) ""
             else "").toList ++ paramSub actual_args v) := by
  induction u with
  | nil =>
    rw [List.nil_append, List.nil_append, paramSub_cons]
    rw [matchParamTok_placeholder ds v hne hd]
    rfl
  | cons x u' ih =>
    have hx : x ≠ '(' := hu x (by simp)
    rw [List.cons_append, paramSub_cons, matchParamTok_none_of_ne x _ hx]
    rw [ih (fun c hc => hu c (by simp [hc]))]
    rfl

/-- Witness for C5 on the text `A (P,2))` with one actual argument
(`(P,2)` is out of range and is removed) — the hypotheses are the
placeholder-free head `A `, and the non-empty digit string `2`. -/
theorem c5_substitution_exact_witness :
    (∀ c ∈ ['A', ' '], c ≠ '(') ∧
    (['2'] : List Char) ≠ [] ∧ (∀ c ∈ ['2'], c.isDigit = true) ∧
    paramSub ["X"] (['A', ' '] ++ '(' :: 'P' :: ',' :: (['2'] ++ ')' :: [')'])) =
      ['A', ' '] ++ ((if 1 ≤ digitsToNat ['2'] ∧ digitsToNat ['2'] ≤ (["X"] : List String).length
             then (["X"] : List String).getD (digitsToNat ['2'] - 1) ""
             else "").toList ++ paramSub ["X"] [')']) :=
  ⟨by decide, by decide, by decide,
   c5_substitution_exact ["X"] ['2'] ['A', ' '] [')']
     (by decide) (by decide) (by decide)⟩

/-! ## C6 (amended): the prefix actually preserved by expansion -/

/-- `findSub` really locates an occurrence: a successful find splits the
list at the returned index. -/
theorem findSub_spec (t : List Char) :
    ∀ (s : List Char) (i : Nat), findSub s t = some i →
      ∃ u w, s = u ++ t ++ w ∧ u.length = i := by
  intro s
  induction s with
  | nil =>
    intro i h
    unfold findSub at h
    by_cases hp : t.isPrefixOf ([] : List Char) = true
    · rw [if_pos hp] at h
      obtain ⟨w, hw⟩ := List.isPrefixOf_iff_prefix.mp hp
      injection h with h
      exact ⟨[], w, by simp [← hw], by simp [← h]⟩
    · rw [if_neg hp] at h
      cases h
  | cons ch s' ih =>
    intro i h
    unfold findSub at h
    by_cases hp : t.isPrefixOf (ch :: s') = true
    · rw [if_pos hp] at h
      obtain ⟨w, hw⟩ := List.isPrefixOf_iff_prefix.mp hp
      injection h with h
      exact ⟨[], w, by simp [← hw], by simp [← h]⟩
    · rw [if_neg hp] at h
      dsimp only at h
      cases hfs : findSub s' t with
      | none => rw [hfs] at h; cases h
      | some j =>
        rw [hfs] at h
        simp only [Option.map_some', Option.some.injEq] at h
        obtain ⟨u, w, huw, hlen⟩ := ih j hfs
        exact ⟨ch :: u, w, by simp [huw], by simp [hlen, ← h]⟩

/-- Every line emitted by the MDT walk starts with the parsed prefix. -/
theorem expandLoop_emits_pfx (mname pfx : String) (args : List String) (mdt : MDT) :
    ∀ (fuel : Nat) (idx : Int) (out : String),
      out ∈ expandLoop mname pfx args mdt fuel idx → ∃ b : String, out = pfx ++ b := by
  intro fuel
  induction fuel with
  | zero =>
    intro idx out hout
    cases hout
  | succ f ih =>
    intro idx out hout
    unfold expandLoop at hout
    cases hl : mdtLookup mdt idx with
    | none =>
      rw [hl] at hout
      cases hout
    | some text =>
      rw [hl] at hout
      dsimp only at hout
      by_cases hm : pyUpper (pyStrip (pyRstrip text)) = "MEND"
      · rw [if_pos hm] at hout
        cases hout
      · rw [if_neg hm] at hout
        by_cases hft : (pySplit (pyStrip (pyRstrip text))).headD "" = mname
        · rw [if_pos hft] at hout
          exact ih (idx + 1) out hout
        · rw [if_neg hft] at hout
          cases hout with
          | head => exact ⟨substitute_params_in_mdt_line (pyRstrip text) args, rfl⟩
          | tail _ ht => exact ih (idx + 1) out ht

/-- C6 (amended): when a macro call is detected, the prefix carved off
by the parser — the text of the line before the first *substring*
occurrence of the macro name, which may end inside an earlier word and
thus differ from the text before the detected whitespace token — is
prepended verbatim to every emitted body line of that invocation, and
the line really decomposes as that prefix, then the macro name, then
the remainder. -/
theorem c6_amended (mnt : MNT) (mdt : MDT) (line pfx mname : String)
    (args : List String)
    (h : parse_macro_call_line line mnt = some (pfx, mname, args)) :
    (∃ rest : List Char, line.toList = pfx.toList ++ (mname.toList ++ rest)) ∧
    ∀ out ∈ expand_line mnt mdt line, ∃ b : String, out = pfx ++ b := by
  have h0 := h
  unfold parse_macro_call_line at h
  by_cases he : pyStrip line = ""
  · rw [if_pos he] at h
    cases h
  · rw [if_neg he] at h
    cases hf : (pySplit line).find? (fun tok => mntMem mnt tok) with
    | none =>
      rw [hf] at h
      cases h
    | some tok =>
      rw [hf] at h
      dsimp only at h
      cases hfs : strFind? line tok with
      | none =>
        rw [hfs] at h
        cases h
      | some tok_pos =>
        rw [hfs] at h
        dsimp only at h
        rw [Option.some.injEq, Prod.mk.injEq, Prod.mk.injEq] at h
        obtain ⟨hpfx, hname, hargs⟩ := h
        constructor
        · obtain ⟨u, w, huw, hlen⟩ := findSub_spec tok.toList line.toList tok_pos hfs
          refine ⟨w, ?_⟩
          rw [← hpfx, ← hname]
          have hu : (line.toList.take tok_pos).asString.toList =
              line.toList.take tok_pos := rfl
          rw [hu, huw, List.append_assoc, List.take_left' hlen]
        · intro out hout
          unfold expand_line at hout
          rw [h0] at hout
          dsimp only at hout
          cases hml : mntLookup mnt mname with
          | none =>
            rw [hml] at hout
            cases hout
          | some v =>
            rw [hml] at hout
            exact expandLoop_emits_pfx mname pfx args mdt _ v.1 out hout

/-- Witness for C6 (amended) at the line `  INCR X,5` of Example 2. -/
theorem c6_amended_witness :
    parse_macro_call_line "  INCR X,5" [("INCR", 10, 2)] =
      some ("  ", "INCR", ["X", "5"]) ∧
    ((∃ rest : List Char,
        ("  INCR X,5" : String).toList =
          ("  " : String).toList ++ (("INCR" : String).toList ++ rest)) ∧
     ∀ out ∈ expand_line [("INCR", 10, 2)]
         [(10, "INCR (P,1),(P,2)"), (11, "ADD (P,1),(P,2)"), (12, "MEND")]
         "  INCR X,5",
       ∃ b : String, out = "  " ++ b) :=
  ⟨by decide,
   c6_amended [("INCR", 10, 2)]
     [(10, "INCR (P,1),(P,2)"), (11, "ADD (P,1),(P,2)"), (12, "MEND")]
     "  INCR X,5" "  " "INCR" ["X", "5"] (by decide)⟩

end Sposhci
